import Mathlib

/-!
Verification of the Samsung NASA sniffer packet pipeline
(repository `samsung-nasa-sniffer`).

This file gives a shallow embedding of the JavaScript source into Lean:

* `crc16`                      — `src/packet-decoder.js` lines 157-170
* `Address` / `Command`        — lines 187-242
* `MessageSet.decode`          — lines 255-281
* `Packet.decode`              — lines 333-382
* `Packet.getSignature`        — lines 384-389
* `PacketAnalyzer.analyzeBuffer` — lines 400-446
* `PacketGrouper.addPacket` / report sorting — `index.js` lines 443-525
* `WebSocketServer` connection handler — `websocket-server.js`

Modelling conventions:

* A Node `Buffer` is a `List Nat` of bytes.  Reads of a `Buffer` index are
  `jsByte`, which truncates entries mod 256 (`Buffer` cells are bytes) and
  yields `0` out of range: a JavaScript out-of-range read gives `undefined`,
  which the bitwise operators (`<<`, `|`, `&`, `^`) coerce to `0`.
* JavaScript 32-bit bitwise arithmetic is modelled on `Nat` truncated mod
  `2 ^ 32`; a value read back as a signed 32-bit integer goes through
  `toInt32`.
* The wall clock (`getCurrentTimestamp`) is an explicit parameter: decode
  takes the current instant `t : Nat`.  ISO-8601 timestamp strings compare
  lexicographically in chronological order, so instants are modelled as
  naturals ordered by `≤`.
-/

/-- Reading `buf[i]` from a Node `Buffer` in a bitwise context:
cells are bytes (writes truncate mod 256); an out-of-range read is
`undefined`, coerced to 0 by the bitwise operators. -/
def jsByte (data : List Nat) (i : Nat) : Nat :=
  data.getD i 0 % 256

/-- Signed reinterpretation of a 32-bit pattern, as JavaScript does when a
chain of `int32` bitwise operators produces a value with bit 31 set. -/
def toInt32 (n : Nat) : Int :=
  if n % 4294967296 < 2147483648 then (n % 4294967296 : Int)
  else (n % 4294967296 : Int) - 4294967296

/-- Constant `NASA_START_BYTE` of `src/packet-decoder.js` line 8. -/
def NASA_START_BYTE : Nat := 0x32

/-- Constant `NASA_END_BYTE` of `src/packet-decoder.js` line 9. -/
def NASA_END_BYTE : Nat := 0x34

/-- One inner iteration of the CRC loop (`packet-decoder.js` lines 161-167):
`if (crc & 0x8000) crc = (crc << 1) ^ 0x1021 else crc <<= 1`.  JavaScript
keeps `crc` as a 32-bit pattern; we track that pattern mod `2 ^ 32`. -/
def crcShift (crc : Nat) : Nat :=
  if crc.testBit 15 then ((crc <<< 1) ^^^ 0x1021) % 4294967296
  else (crc <<< 1) % 4294967296

/-- Eight rounds of `crcShift` (the inner `for` loop). -/
def crcRounds : Nat → Nat → Nat
  | 0, crc => crc
  | n + 1, crc => crcRounds n (crcShift crc)

/-- The outer loop of `crc16` (`packet-decoder.js` lines 159-168), running
`len` times starting at index `i`: `crc = crc ^ (data[index] << 8)` then the
eight shift rounds. -/
def crc16Go (data : List Nat) : Nat → Nat → Nat → Nat
  | 0, _, crc => crc
  | len + 1, i, crc => crc16Go data len (i + 1) (crcRounds 8 (crc ^^^ (jsByte data i <<< 8)))

/-- Function `crc16(data, startIndex, length)` (`packet-decoder.js` lines 157-170):
CRC-16, polynomial 0x1021, initial value 0, no reflection; the final
`crc & 0xffff` is the low 16 bits of the tracked pattern. -/
def crc16 (data : List Nat) (startIndex length : Nat) : Nat :=
  crc16Go data length startIndex 0 % 65536

/-- Class `Address` (`packet-decoder.js` lines 187-213): three byte fields. -/
structure Address where
  klass : Nat := 0xff
  channel : Nat := 0
  address : Nat := 0
deriving DecidableEq, Repr

/-- Method `Address.prototype.decode(data, index)` (lines 195-199). -/
def Address.decode (data : List Nat) (index : Nat) : Address :=
  { klass := jsByte data index
    channel := jsByte data (index + 1)
    address := jsByte data (index + 2) }

/-- Upper-case hex digit, as produced by `toString(16).toUpperCase()`. -/
def hexDigitU (n : Nat) : Char :=
  if n < 10 then Char.ofNat (48 + n) else Char.ofNat (55 + n)

/-- Lower-case hex digit, as produced by `toString(16)`. -/
def hexDigitL (n : Nat) : Char :=
  if n < 10 then Char.ofNat (48 + n) else Char.ofNat (87 + n)

/-- Function `byteToHex` (`packet-decoder.js` lines 172-174) applied to a byte:
two upper-case hex digits. -/
def byteToHex (b : Nat) : String :=
  String.mk [hexDigitU (b / 16 % 16), hexDigitU (b % 16)]

/-- Method `Address.prototype.toString` (lines 205-207): `CC.HH.NN`. -/
def Address.render (a : Address) : String :=
  byteToHex a.klass ++ "." ++ byteToHex a.channel ++ "." ++ byteToHex a.address

/-- Class `Command` (`packet-decoder.js` lines 217-242), bit-unpacked header. -/
structure Command where
  packetInformation : Bool := true
  protocolVersion : Nat := 2
  retryCount : Nat := 0
  packetType : Nat := 0
  dataType : Nat := 0
  packetNumber : Nat := 0
deriving DecidableEq, Repr

/-- Method `Command.prototype.decode(data, index)` (lines 228-235). -/
def Command.decode (data : List Nat) (index : Nat) : Command :=
  { packetInformation := (jsByte data index &&& 0x80) >>> 7 = 1
    protocolVersion := (jsByte data index &&& 0x60) >>> 5
    retryCount := (jsByte data index &&& 0x18) >>> 3
    packetType := (jsByte data (index + 1) &&& 0xf0) >>> 4
    dataType := jsByte data (index + 1) &&& 0x0f
    packetNumber := jsByte data (index + 2) }

/-- Table `DataTypeName[n]` (`packet-decoder.js` lines 101-110); an out-of-range
index yields `undefined`, rendered as the string `"undefined"` when it is
interpolated into the signature template. -/
def dataTypeName : Nat → String
  | 0 => "Undefined"
  | 1 => "Read"
  | 2 => "Write"
  | 3 => "Request"
  | 4 => "Notification"
  | 5 => "Response"
  | 6 => "Ack"
  | 7 => "Nack"
  | _ => "undefined"

/-- Class `MessageSet` (`packet-decoder.js` lines 246-281).  The JS `value` is a
dynamically typed number: Enum and Variable reads stay non-negative, the
LongVariable read is an `int32` chain and can be negative, so `value : Int`.
The constructor's `structure` field stays `null` throughout the source and is
omitted.  `size` is an `Int` because the Structure case computes
`data.length - index - 3`, which JavaScript lets go negative. -/
structure MessageSet where
  messageNumber : Nat
  msType : Nat
  value : Int := 0
  size : Int := 2
deriving DecidableEq, Repr

/-- Byte read at a JavaScript (possibly negative) index: a negative index on
a `Buffer` reads `undefined`, coerced to 0 in bitwise contexts. -/
def jsByteI (data : List Nat) (i : Int) : Nat :=
  if 0 ≤ i then jsByte data i.toNat else 0

/-- Method `MessageSet.decode(data, index, capacity)` (`packet-decoder.js` lines
255-281).  `capacity` is unused by the source body and omitted here.
The kind is `(messageNumber & 0x0600) >> 9`; payload reads per kind. -/
def MessageSet.decode (data : List Nat) (index : Int) : MessageSet :=
  let messageNumber := (jsByteI data index <<< 8) ||| jsByteI data (index + 1)
  let msType := (messageNumber &&& 0x0600) >>> 9
  if msType = 0 then
    { messageNumber, msType, value := (jsByteI data (index + 2) : Int), size := 3 }
  else if msType = 1 then
    { messageNumber, msType
      value := ((jsByteI data (index + 2) <<< 8) ||| jsByteI data (index + 3) : Nat)
      size := 4 }
  else if msType = 2 then
    { messageNumber, msType
      value := toInt32 ((jsByteI data (index + 2) <<< 24) ||| (jsByteI data (index + 3) <<< 16) |||
        (jsByteI data (index + 4) <<< 8) ||| jsByteI data (index + 5))
      size := 6 }
  else
    { messageNumber, msType, value := 0, size := (data.length : Int) - index - 3 }

/-- The message loop of `Packet.prototype.decode` (`packet-decoder.js` lines
374-379): exactly `capacity` iterations, each decoding one `MessageSet` at
the cursor and advancing the cursor by its size.  Returns the decoded
messages and the final cursor. -/
def decodeMessages (data : List Nat) : Nat → Int → List MessageSet × Int
  | 0, cursor => ([], cursor)
  | n + 1, cursor =>
    let m := MessageSet.decode data cursor
    let r := decodeMessages data n (cursor + m.size)
    (m :: r.1, r.2)

/-- Class `Packet` (`packet-decoder.js` lines 323-331); `rawData` and `timestamp`
start as `null` (here `none`). -/
structure Packet where
  sa : Address := {}
  da : Address := {}
  command : Command := {}
  messages : List MessageSet := []
  rawData : Option (List Nat) := none
  timestamp : Option Nat := none
deriving DecidableEq, Repr

instance : Inhabited Packet := ⟨{}⟩

/-- The result values of `Packet.prototype.decode`: `{success: true}` or
`{success: false, error: <string>}`, with the error strings of
`packet-decoder.js` lines 338-357 mapped to constructors.  `crcError`
carries the `expected`/`actual` pair interpolated at line 357. -/
inductive DecodeResult where
  | success
  | invalidStart
  | unexpectedSize
  | sizeMismatch
  | invalidEnd
  | crcError (expected actual : Nat)
deriving DecidableEq, Repr

/-- Method `Packet.prototype.decode(data)` (`packet-decoder.js` lines 333-382).
The method first overwrites `this.rawData` (with `Buffer.from(data)`, an
independent copy — list values are copies by construction here) and
`this.timestamp`, then validates, then fills the header fields and message
list.  Returns the mutated packet together with the result object. -/
def Packet.decode (p : Packet) (data : List Nat) (t : Nat) : Packet × DecodeResult :=
  let p := { p with rawData := some data, timestamp := some t }
  if jsByte data 0 ≠ NASA_START_BYTE then (p, .invalidStart)
  else if data.length < 16 ∨ 1500 < data.length then (p, .unexpectedSize)
  else
    let size := (jsByte data 1 <<< 8) ||| jsByte data 2
    if size + 2 ≠ data.length then (p, .sizeMismatch)
    else if jsByte data (data.length - 1) ≠ NASA_END_BYTE then (p, .invalidEnd)
    else
      let crcActual := crc16 data 3 (size - 4)
      let crcExpected := (jsByte data (data.length - 3) <<< 8) ||| jsByte data (data.length - 2)
      if crcExpected ≠ crcActual then (p, .crcError crcExpected crcActual)
      else
        let sa := Address.decode data 3
        let da := Address.decode data 6
        let command := Command.decode data 9
        let capacity := jsByte data 12
        let ms := decodeMessages data capacity 13
        ({ p with sa, da, command, messages := ms.1 }, .success)

/-- The first four validations of `Packet.prototype.decode` (lines 337-352):
start byte, length range, size field, end byte. -/
def preChecksPass (data : List Nat) : Prop :=
  jsByte data 0 = NASA_START_BYTE ∧
  16 ≤ data.length ∧ data.length ≤ 1500 ∧
  ((jsByte data 1 <<< 8) ||| jsByte data 2) + 2 = data.length ∧
  jsByte data (data.length - 1) = NASA_END_BYTE

instance (data : List Nat) : Decidable (preChecksPass data) := by
  unfold preChecksPass; infer_instance

/-- The CRC recomputed by line 354 of `packet-decoder.js`: over the bytes
from index 3 for `size - 4` bytes.  When the size field is consistent
(`size + 2 = len`) this is exactly the region `[3, len - 3)`. -/
def frameCrcComputed (data : List Nat) : Nat :=
  crc16 data 3 ((((jsByte data 1 <<< 8) ||| jsByte data 2)) - 4)

/-- The stored CRC: the big-endian 16-bit value at indices `len-3`, `len-2`
(line 355). -/
def frameCrcStored (data : List Nat) : Nat :=
  (jsByte data (data.length - 3) <<< 8) ||| jsByte data (data.length - 2)

/-- Model of `Buffer.prototype.indexOf(0x32)` over a byte list: the index of the
first start byte, if any. -/
def firstStart : List Nat → Option Nat
  | [] => none
  | b :: rest => if b % 256 = NASA_START_BYTE then some 0 else (firstStart rest).map (· + 1)

/-- The value returned by `PacketAnalyzer.analyzeBuffer` (`packet-decoder.js`
lines 400-446).  `candidates` are the extracted slices handed to
`Packet.decode` in extraction order (the source pushes each decode's success
to `packets` and its error message to `errors`; the extraction itself does
not depend on the decode outcome).  `skips` records the byte counts of the
`Skipped N bytes looking for start byte` events, and `remaining` is
`remainingBuffer`. -/
structure AnalyzeResult where
  candidates : List (List Nat)
  skips : List Nat
  remaining : List Nat
deriving DecidableEq, Repr

/-- Method `PacketAnalyzer.analyzeBuffer(buffer)` (`packet-decoder.js` lines
400-446).  The loop: on a non-start head, search for the next `0x32` from
index 1 — if none, discard the whole buffer, else record the skip and resume
there; on a start head with at least 3 bytes, read the declared total size
`((buf[1] << 8) | buf[2]) + 2` and, once that many bytes are available,
extract them as one candidate and continue after them; otherwise keep the
buffer as the remaining tail. -/
def PacketAnalyzer.analyzeBuffer : List Nat → AnalyzeResult
  | [] => ⟨[], [], []⟩
  | b :: rest =>
    if b % 256 = NASA_START_BYTE then
      if 2 ≤ rest.length then
        let totalSize := ((jsByte (b :: rest) 1 <<< 8) ||| jsByte (b :: rest) 2) + 2
        if totalSize ≤ (b :: rest).length then
          let r := PacketAnalyzer.analyzeBuffer ((b :: rest).drop totalSize)
          ⟨(b :: rest).take totalSize :: r.candidates, r.skips, r.remaining⟩
        else ⟨[], [], b :: rest⟩
      else ⟨[], [], b :: rest⟩
    else
      match firstStart rest with
      | none => ⟨[], [], []⟩
      | some j =>
        let r := PacketAnalyzer.analyzeBuffer (rest.drop j)
        ⟨r.candidates, (j + 1) :: r.skips, r.remaining⟩
termination_by buf => buf.length
decreasing_by
  · simp only [List.length_drop, List.length_cons]
    omega
  · simp only [List.length_drop, List.length_cons]
    omega

/-- Feeding the reassembler a sequence of chunks, as `handleIncomingData`
(`index.js` lines 578-613) does: each arriving chunk is concatenated onto
the retained tail and one reassembler invocation runs; candidate frames
accumulate across invocations.  Returns (candidates in order, final tail). -/
def feedChunks : List Nat → List (List Nat) → List (List Nat) × List Nat
  | tail, [] => ([], tail)
  | tail, chunk :: rest =>
    let r := PacketAnalyzer.analyzeBuffer (tail ++ chunk)
    let s := feedChunks r.remaining rest
    (r.candidates ++ s.1, s.2)

/-- Rendering `toString(16).padStart(4, "0")` of a message number (16-bit): four
lower-case hex digits, as used by `getSignature`. -/
def msgHex4 (n : Nat) : String :=
  String.mk [hexDigitL (n / 4096 % 16), hexDigitL (n / 256 % 16),
    hexDigitL (n / 16 % 16), hexDigitL (n % 16)]

/-- Method `Packet.prototype.getSignature` (`packet-decoder.js` lines 384-389):
`<source>-><destination>:<DataTypeName>:[<msg ids joined by ,>]`. -/
def Packet.getSignature (p : Packet) : String :=
  p.sa.render ++ "->" ++ p.da.render ++ ":" ++ dataTypeName p.command.dataType ++ ":[" ++
    String.intercalate "," (p.messages.map fun m => msgHex4 m.messageNumber) ++ "]"

/-- One value of `PacketGrouper.groups` (`index.js` lines 453-461). -/
structure PGroup where
  signature : String
  count : Nat
  firstSeen : Option Nat
  lastSeen : Option Nat
  examplePacket : Packet
  allPackets : List Packet
deriving DecidableEq, Repr

instance : Inhabited PGroup := ⟨⟨"", 0, none, none, default, []⟩⟩

/-- State of `PacketGrouper` (`index.js` lines 443-447): the group map is a JS
`Map`, which iterates in insertion order; it is modelled as the list of its
values in that order. -/
structure GrouperState where
  groups : List PGroup
  totalPackets : Nat
deriving DecidableEq, Repr

/-- Method `PacketGrouper.prototype.addPacket(packet)` (`index.js` lines 449-468):
increment the total; create the signature's group (count 0, both timestamps
and the example from this packet, empty list) if absent — appended at the
end, since a JS `Map` keeps insertion order; then update the signature's
group: count + 1, `lastSeen` overwritten, packet appended. -/
def PacketGrouper.addPacket (st : GrouperState) (p : Packet) : GrouperState :=
  let sig := p.getSignature
  let groups0 :=
    if st.groups.any (fun g => g.signature = sig) then st.groups
    else st.groups ++ [⟨sig, 0, p.timestamp, p.timestamp, p, []⟩]
  { totalPackets := st.totalPackets + 1
    groups := groups0.map fun g =>
      if g.signature = sig then
        { g with count := g.count + 1, lastSeen := p.timestamp,
                 allPackets := g.allPackets ++ [p] }
      else g }

/-- A fresh `PacketGrouper` fed a sequence of packets in order. -/
def PacketGrouper.run (ps : List Packet) : GrouperState :=
  ps.foldl PacketGrouper.addPacket ⟨[], 0⟩

/-- Stable insertion of a group into a count-descending list: the group goes
after every group with a count ≥ its own.  Together with `sortGroups` this
is extensionally the ECMAScript (stable, ES2019) `Array.prototype.sort` with
comparator `(a, b) => b.count - a.count` used at `index.js` line 483. -/
def insertByCount (g : PGroup) : List PGroup → List PGroup
  | [] => [g]
  | h :: t => if h.count < g.count then g :: h :: t else h :: insertByCount g t

/-- Stable sort of the group list by count descending, modelling
`Array.from(this.groups.values()).sort((a, b) => b.count - a.count)`
(`index.js` line 483; identically `logger.js` line 238). -/
def sortGroups (l : List PGroup) : List PGroup :=
  l.foldl (fun acc g => insertByCount g acc) []

/-- The group sequence of `PacketGrouper.prototype.generateReport`
(`index.js` lines 470-519): the sorted groups, in the order the report
blocks are emitted. -/
def PacketGrouper.reportGroups (st : GrouperState) : List PGroup :=
  sortGroups st.groups

/-- Chronological comparison of two timestamp fields; `none` (a packet never
stamped) compares with nothing. -/
def tsLe (a b : Option Nat) : Prop :=
  ∃ x y, a = some x ∧ b = some y ∧ x ≤ y

instance (a b : Option Nat) : Decidable (tsLe a b) := by
  unfold tsLe
  rcases a with - | x <;> rcases b with - | y
  · exact .isFalse (by simp)
  · exact .isFalse (by simp)
  · exact .isFalse (by simp)
  · exact decidable_of_iff (x ≤ y) (by simp)

/-- The packets observed with a given signature, in observation order. -/
def sigOccurrences (ps : List Packet) (s : String) : List Packet :=
  ps.filter fun p => p.getSignature = s

/-- A minimal JSON value model for the WebSocket envelopes. -/
inductive Json where
  | str (s : String)
  | num (n : Int)
  | jbool (b : Bool)
  | arr (xs : List Json)
  | obj (fields : List (String × Json))
deriving Repr

/-- Field lookup in a JSON object; `none` on a missing key or a non-object. -/
def Json.lookupField (j : Json) (key : String) : Option Json :=
  match j with
  | .obj fields => (fields.find? fun f => f.1 = key).map (·.2)
  | _ => none

/-- The message sent to a newly connected WebSocket client by the
`connection` handler (`websocket-server.js` lines 348-369, send at lines
353-358): `JSON.stringify({ type: "history", packets: this.packetHistory })`. -/
def WebSocketServer.attachEvent (packetHistory : List Json) : Json :=
  .obj [("type", .str "history"), ("packets", .arr packetHistory)]

/-- Everything the `connection` handler sends to the new client before
returning: exactly the one history snapshot (`websocket-server.js` lines
348-369; the handler runs to completion on the single-threaded event loop
before any `broadcastPacket` can deliver a per-packet event to this
client). -/
def WebSocketServer.attachSends (packetHistory : List Json) : List Json :=
  [WebSocketServer.attachEvent packetHistory]

/-! ### Shared lemmas about `Packet.decode` -/

/-- `Packet.decode` succeeds exactly when the start byte, length range, size
field, end byte and CRC checks pass; the message loop never fails. -/
lemma decode_success_iff (p : Packet) (data : List Nat) (t : Nat) :
    (p.decode data t).2 = .success ↔
      preChecksPass data ∧ frameCrcStored data = frameCrcComputed data := by
  unfold Packet.decode preChecksPass frameCrcStored frameCrcComputed
  dsimp only
  split
  · rename_i h
    simp only [reduceCtorEq, false_iff]
    intro hc
    exact h hc.1.1
  · split
    · rename_i h
      simp only [reduceCtorEq, false_iff]
      intro hc
      omega
    · split
      · rename_i h
        simp only [reduceCtorEq, false_iff]
        intro hc
        exact h hc.1.2.2.2.1
      · split
        · rename_i h
          simp only [reduceCtorEq, false_iff]
          intro hc
          exact h hc.1.2.2.2.2
        · split
          · rename_i h
            simp only [reduceCtorEq, false_iff]
            intro hc
            exact h hc.2
          · rename_i h0 h1 h2 h3 h4
            simp only [true_iff]
            refine ⟨⟨by omega, by omega, by omega, by omega, by omega⟩, by omega⟩

example := decode_success_iff

/-- Once the four pre-checks pass, a CRC mismatch yields exactly
`crcError (stored) (recomputed)`. -/
lemma decode_crcError (p : Packet) (data : List Nat) (t : Nat)
    (hpre : preChecksPass data) (hne : frameCrcStored data ≠ frameCrcComputed data) :
    (p.decode data t).2 = .crcError (frameCrcStored data) (frameCrcComputed data) := by
  obtain ⟨h0, h1, h2, h3, h4⟩ := hpre
  unfold Packet.decode frameCrcStored frameCrcComputed at *
  dsimp only
  split_ifs with a b c d
  · omega
  · omega
  · omega
  · omega
  · rfl

example := @decode_crcError

/-! ### Byte-read helper lemmas -/

lemma jsByte_append_left {l₁ l₂ : List Nat} {i : Nat} (h : i < l₁.length) :
    jsByte (l₁ ++ l₂) i = jsByte l₁ i := by
  unfold jsByte
  rw [List.getD_eq_getElem?_getD, List.getD_eq_getElem?_getD, List.getElem?_append_left h]

lemma jsByte_take {l : List Nat} {n i : Nat} (h : i < n) :
    jsByte (l.take n) i = jsByte l i := by
  unfold jsByte
  rw [List.getD_eq_getElem?_getD, List.getD_eq_getElem?_getD, List.getElem?_take, if_pos h]

/-! ### Claim theorems, first batch -/

set_option maxRecDepth 40000

/-- Claim C1: a frame accepted by `Packet.decode` has a CRC-16 over bytes
`[3, len-3)` (the source computes `crc16(data, 3, size - 4)`, which is that
region once the size field is consistent) equal to the big-endian 16-bit
value at `len-3`, `len-2`; a frame that reaches the CRC check with a
mismatch is rejected with `crcError (stored) (recomputed)`. -/
theorem claim_C1 (data : List Nat) (t : Nat) (p : Packet) :
    ((p.decode data t).2 = .success → frameCrcStored data = frameCrcComputed data) ∧
    (preChecksPass data → frameCrcStored data ≠ frameCrcComputed data →
      (p.decode data t).2 = .crcError (frameCrcStored data) (frameCrcComputed data)) :=
  ⟨fun h => ((decode_success_iff p data t).mp h).2, decode_crcError p data t⟩

/-- Witness for C1 at two concrete 16-byte frames: the zero-payload frame
with correct CRC `0x0000` decodes successfully, and the same frame with the
stored CRC altered to `0x0001` is rejected with `crcError 1 0`. -/
theorem claim_C1_witness :
    ((Packet.decode {} [0x32,0,0x0E,0,0,0,0,0,0,0,0,0,0,0,0,0x34] 0).2 = .success ∧
      frameCrcStored [0x32,0,0x0E,0,0,0,0,0,0,0,0,0,0,0,0,0x34] =
        frameCrcComputed [0x32,0,0x0E,0,0,0,0,0,0,0,0,0,0,0,0,0x34]) ∧
    (preChecksPass [0x32,0,0x0E,0,0,0,0,0,0,0,0,0,0,0,1,0x34] ∧
      frameCrcStored [0x32,0,0x0E,0,0,0,0,0,0,0,0,0,0,0,1,0x34] ≠
        frameCrcComputed [0x32,0,0x0E,0,0,0,0,0,0,0,0,0,0,0,1,0x34] ∧
      (Packet.decode {} [0x32,0,0x0E,0,0,0,0,0,0,0,0,0,0,0,1,0x34] 0).2 =
        .crcError (frameCrcStored [0x32,0,0x0E,0,0,0,0,0,0,0,0,0,0,0,1,0x34])
          (frameCrcComputed [0x32,0,0x0E,0,0,0,0,0,0,0,0,0,0,0,1,0x34])) :=
  ⟨⟨by decide, (claim_C1 [0x32,0,0x0E,0,0,0,0,0,0,0,0,0,0,0,0,0x34] 0 {}).1 (by decide)⟩,
   ⟨by decide, by decide,
    (claim_C1 [0x32,0,0x0E,0,0,0,0,0,0,0,0,0,0,0,1,0x34] 0 {}).2 (by decide) (by decide)⟩⟩

/-- Claim C2 (counterexample): a 17-byte frame whose checks and CRC all pass
but whose message cursor finishes at 13, not `len - 3 = 14`, is *accepted*
by `Packet.decode`; the claimed `TrailingBytes` rejection does not exist. -/
theorem claim_C2_counterexample :
    (Packet.decode {} [0x32,0,0x0F,0,0,0,0,0,0,0,0,0,0,0,0,0,0x34] 0).2 = .success ∧
    (decodeMessages [0x32,0,0x0F,0,0,0,0,0,0,0,0,0,0,0,0,0,0x34]
      (jsByte [0x32,0,0x0F,0,0,0,0,0,0,0,0,0,0,0,0,0,0x34] 12) 13).2 = 13 ∧
    (13 : Int) ≠ 17 - 3 := by
  refine ⟨by decide, by decide, by decide⟩

/-- Claim C2 (amended): `Packet.decode` performs no cursor-boundary check on
the message region — it succeeds exactly when the start byte, length range,
size field, end byte and CRC checks pass, wherever the message cursor
lands. -/
theorem claim_C2 (data : List Nat) (t : Nat) (p : Packet) :
    (p.decode data t).2 = .success ↔
      preChecksPass data ∧ frameCrcStored data = frameCrcComputed data :=
  decode_success_iff p data t

/-- Witness for C2 at the minimal 16-byte frame. -/
theorem claim_C2_witness :
    preChecksPass [0x32,0,0x0E,0,0,0,0,0,0,0,0,0,0,0,0,0x34] ∧
    frameCrcStored [0x32,0,0x0E,0,0,0,0,0,0,0,0,0,0,0,0,0x34] =
      frameCrcComputed [0x32,0,0x0E,0,0,0,0,0,0,0,0,0,0,0,0,0x34] ∧
    (Packet.decode {} [0x32,0,0x0E,0,0,0,0,0,0,0,0,0,0,0,0,0x34] 0).2 = .success :=
  ⟨by decide, by decide,
   (claim_C2 [0x32,0,0x0E,0,0,0,0,0,0,0,0,0,0,0,0,0x34] 0 {}).mpr ⟨by decide, by decide⟩⟩

/-- Claim C4: evaluated at the failing input — a Variable record
(`0x4201`, payload `FF FF`) is stored as the *unsigned* 65535, not the
claimed signed −1, while a LongVariable record (`0x8413`, payload
`FF FF FF FF`) is stored as the claimed signed −1 (the JavaScript `int32`
bitwise chain sign-extends the 4-byte read but not the 2-byte read). -/
theorem claim_C4 :
    (MessageSet.decode [0x42, 0x01, 0xFF, 0xFF] 0).msType = 1 ∧
    (MessageSet.decode [0x42, 0x01, 0xFF, 0xFF] 0).value = 65535 ∧
    (MessageSet.decode [0x42, 0x01, 0xFF, 0xFF] 0).value ≠ -1 ∧
    (MessageSet.decode [0x84, 0x13, 0xFF, 0xFF, 0xFF, 0xFF] 0).msType = 2 ∧
    (MessageSet.decode [0x84, 0x13, 0xFF, 0xFF, 0xFF, 0xFF] 0).value = -1 := by
  decide

/-- Claim C10: `Packet.decode` stores the raw frame copy and the timestamp
before any validation, so both fields are populated whatever the result. -/
theorem claim_C10 (data : List Nat) (t : Nat) (p : Packet) :
    (p.decode data t).1.rawData = some data ∧ (p.decode data t).1.timestamp = some t := by
  unfold Packet.decode
  dsimp only
  split_ifs <;> simp

/-- Claim C6 (counterexample): the event sent on subscriber attach has type
`"history"`, not `"init"`, and carries no `viewMode` field at all. -/
theorem claim_C6_counterexample :
    (WebSocketServer.attachEvent []).lookupField "type" = some (.str "history") ∧
    Json.str "history" ≠ Json.str "init" ∧
    (WebSocketServer.attachEvent []).lookupField "viewMode" = none := by
  refine ⟨rfl, ?_, rfl⟩
  simp

/-- Claim C6 (amended): on attach the connection handler sends the new
subscriber exactly one event, `{ type: "history", packets: [...] }`,
carrying the full packet-history snapshot and no mode flag, before any
per-packet event can reach that subscriber. -/
theorem claim_C6 (history : List Json) :
    WebSocketServer.attachSends history = [WebSocketServer.attachEvent history] ∧
    (WebSocketServer.attachEvent history).lookupField "type" = some (.str "history") ∧
    (WebSocketServer.attachEvent history).lookupField "packets" = some (.arr history) ∧
    (WebSocketServer.attachEvent history).lookupField "viewMode" = none :=
  ⟨rfl, rfl, rfl, rfl⟩

/-- Claim C3 (counterexample): at start byte `0x32` with declared length
`(0x00 << 8 | 0x00) + 2 = 2 < 16`, the reassembler emits no resync event and
does not advance by 1: it extracts the 2 declared-length bytes as a
candidate frame (which the decoder then rejects as `unexpectedSize`). -/
theorem claim_C3_counterexample :
    ((jsByte [0x32, 0x00, 0x00, 0x41] 1 <<< 8 ||| jsByte [0x32, 0x00, 0x00, 0x41] 2) + 2 = 2
      ∧ 2 < 16) ∧
    PacketAnalyzer.analyzeBuffer [0x32, 0x00, 0x00, 0x41] = ⟨[[0x32, 0x00]], [], []⟩ ∧
    (Packet.decode {} [0x32, 0x00] 0).2 = .unexpectedSize := by
  refine ⟨by decide, ?_, by decide⟩
  simp [PacketAnalyzer.analyzeBuffer, jsByte, firstStart, NASA_START_BYTE]

/-- Claim C3 (amended): on a start byte whose declared length is outside
`[16, 1500]`, the reassembler does not resync: once the declared-length
bytes are available it extracts them as a candidate frame — advancing by the
declared length — and the decoder rejects that candidate with
`unexpectedSize`. -/
theorem claim_C3 (buf : List Nat) (t : Nat) (p : Packet)
    (hstart : jsByte buf 0 = NASA_START_BYTE)
    (h3 : 3 ≤ buf.length)
    (hrange : (jsByte buf 1 <<< 8 ||| jsByte buf 2) + 2 < 16 ∨
      1500 < (jsByte buf 1 <<< 8 ||| jsByte buf 2) + 2)
    (havail : (jsByte buf 1 <<< 8 ||| jsByte buf 2) + 2 ≤ buf.length) :
    PacketAnalyzer.analyzeBuffer buf =
      ⟨buf.take ((jsByte buf 1 <<< 8 ||| jsByte buf 2) + 2) ::
          (PacketAnalyzer.analyzeBuffer
            (buf.drop ((jsByte buf 1 <<< 8 ||| jsByte buf 2) + 2))).candidates,
        (PacketAnalyzer.analyzeBuffer
          (buf.drop ((jsByte buf 1 <<< 8 ||| jsByte buf 2) + 2))).skips,
        (PacketAnalyzer.analyzeBuffer
          (buf.drop ((jsByte buf 1 <<< 8 ||| jsByte buf 2) + 2))).remaining⟩ ∧
    (p.decode (buf.take ((jsByte buf 1 <<< 8 ||| jsByte buf 2) + 2)) t).2 = .unexpectedSize := by
  obtain ⟨b, rest, rfl⟩ : ∃ b rest, buf = b :: rest := by
    cases buf with
    | nil => simp at h3
    | cons b rest => exact ⟨b, rest, rfl⟩
  have hb : b % 256 = NASA_START_BYTE := by
    simpa [jsByte] using hstart
  have hlen : 2 ≤ rest.length := by
    simpa using h3
  constructor
  · rw [PacketAnalyzer.analyzeBuffer]
    rw [if_pos hb, if_pos hlen, if_pos havail]
  · have htake0 : jsByte ((b :: rest).take ((jsByte (b :: rest) 1 <<< 8 ||| jsByte (b :: rest) 2) + 2)) 0
        = NASA_START_BYTE := by
      rw [jsByte_take (by omega)]
      exact hstart
    have hlen' : ((b :: rest).take ((jsByte (b :: rest) 1 <<< 8 ||| jsByte (b :: rest) 2) + 2)).length
        = (jsByte (b :: rest) 1 <<< 8 ||| jsByte (b :: rest) 2) + 2 := by
      rw [List.length_take]
      omega
    unfold Packet.decode
    dsimp only
    rw [if_neg (by rw [htake0]; simp), if_pos (by rw [hlen']; omega)]

/-- Claim C9: one reassembler invocation consumes some prefix — the
remaining tail is the input with its first `k` bytes dropped (the invocation
is a total function, so it terminates on every input; the pipeline feeds the
tail, never the consumed prefix, to the next invocation). -/
theorem claim_C9 (buf : List Nat) :
    (∃ k, (PacketAnalyzer.analyzeBuffer buf).remaining = buf.drop k) ∧
    (PacketAnalyzer.analyzeBuffer buf).remaining <:+ buf := by
  have main : ∃ k, (PacketAnalyzer.analyzeBuffer buf).remaining = buf.drop k := by
    induction buf using PacketAnalyzer.analyzeBuffer.induct with
    | case1 =>
      exact ⟨0, by rw [PacketAnalyzer.analyzeBuffer]; rfl⟩
    | case2 b rest hb hlen totalSize havail ih =>
      obtain ⟨k, hk⟩ := ih
      refine ⟨totalSize + k, ?_⟩
      rw [PacketAnalyzer.analyzeBuffer, if_pos hb, if_pos hlen, if_pos havail]
      dsimp only
      rw [hk, List.drop_drop]
    | case3 b rest hb hlen totalSize havail =>
      refine ⟨0, ?_⟩
      rw [PacketAnalyzer.analyzeBuffer, if_pos hb, if_pos hlen, if_neg havail]
      rfl
    | case4 b rest hb hlen =>
      refine ⟨0, ?_⟩
      rw [PacketAnalyzer.analyzeBuffer, if_pos hb, if_neg hlen]
      rfl
    | case5 b rest hb hnone =>
      refine ⟨(b :: rest).length, ?_⟩
      rw [PacketAnalyzer.analyzeBuffer, if_neg hb, hnone]
      simp
    | case6 b rest hb j hsome ih =>
      obtain ⟨k, hk⟩ := ih
      refine ⟨j + k + 1, ?_⟩
      rw [PacketAnalyzer.analyzeBuffer, if_neg hb, hsome]
      dsimp only
      rw [hk, List.drop_drop, List.drop_succ_cons]
  refine ⟨main, ?_⟩
  obtain ⟨k, hk⟩ := main
  rw [hk]
  exact List.drop_suffix k buf

/-! ### Reassembler step and composition lemmas (for claim C5) -/

lemma analyze_nil : PacketAnalyzer.analyzeBuffer [] = ⟨[], [], []⟩ := by
  rw [PacketAnalyzer.analyzeBuffer]

lemma analyze_extract {b : Nat} {rest : List Nat}
    (hb : b % 256 = NASA_START_BYTE) (hlen : 2 ≤ rest.length)
    (havail : (jsByte (b :: rest) 1 <<< 8 ||| jsByte (b :: rest) 2) + 2 ≤ (b :: rest).length) :
    PacketAnalyzer.analyzeBuffer (b :: rest) =
      ⟨(b :: rest).take ((jsByte (b :: rest) 1 <<< 8 ||| jsByte (b :: rest) 2) + 2) ::
          (PacketAnalyzer.analyzeBuffer
            ((b :: rest).drop ((jsByte (b :: rest) 1 <<< 8 ||| jsByte (b :: rest) 2) + 2))).candidates,
        (PacketAnalyzer.analyzeBuffer
          ((b :: rest).drop ((jsByte (b :: rest) 1 <<< 8 ||| jsByte (b :: rest) 2) + 2))).skips,
        (PacketAnalyzer.analyzeBuffer
          ((b :: rest).drop ((jsByte (b :: rest) 1 <<< 8 ||| jsByte (b :: rest) 2) + 2))).remaining⟩ := by
  rw [PacketAnalyzer.analyzeBuffer, if_pos hb, if_pos hlen, if_pos havail]

lemma analyze_wait {b : Nat} {rest : List Nat}
    (hb : b % 256 = NASA_START_BYTE) (hlen : 2 ≤ rest.length)
    (havail : ¬((jsByte (b :: rest) 1 <<< 8 ||| jsByte (b :: rest) 2) + 2 ≤ (b :: rest).length)) :
    PacketAnalyzer.analyzeBuffer (b :: rest) = ⟨[], [], b :: rest⟩ := by
  rw [PacketAnalyzer.analyzeBuffer, if_pos hb, if_pos hlen, if_neg havail]

lemma analyze_short {b : Nat} {rest : List Nat}
    (hb : b % 256 = NASA_START_BYTE) (hlen : ¬2 ≤ rest.length) :
    PacketAnalyzer.analyzeBuffer (b :: rest) = ⟨[], [], b :: rest⟩ := by
  rw [PacketAnalyzer.analyzeBuffer, if_pos hb, if_neg hlen]

lemma analyze_nostart {b : Nat} {rest : List Nat}
    (hb : ¬b % 256 = NASA_START_BYTE) (h : firstStart rest = none) :
    PacketAnalyzer.analyzeBuffer (b :: rest) = ⟨[], [], []⟩ := by
  rw [PacketAnalyzer.analyzeBuffer, if_neg hb, h]

lemma analyze_skip {b : Nat} {rest : List Nat} {j : Nat}
    (hb : ¬b % 256 = NASA_START_BYTE) (h : firstStart rest = some j) :
    PacketAnalyzer.analyzeBuffer (b :: rest) =
      ⟨(PacketAnalyzer.analyzeBuffer (rest.drop j)).candidates,
        (j + 1) :: (PacketAnalyzer.analyzeBuffer (rest.drop j)).skips,
        (PacketAnalyzer.analyzeBuffer (rest.drop j)).remaining⟩ := by
  rw [PacketAnalyzer.analyzeBuffer, if_neg hb, h]

lemma firstStart_append (l c : List Nat) :
    firstStart (l ++ c) =
      match firstStart l with
      | some j => some j
      | none => (firstStart c).map (· + l.length) := by
  induction l with
  | nil =>
    cases h : firstStart c <;> simp [firstStart, h]
  | cons b rest ih =>
    by_cases hb : b % 256 = NASA_START_BYTE
    · simp [firstStart, hb]
    · have lhs : firstStart ((b :: rest) ++ c) = (firstStart (rest ++ c)).map (· + 1) := by
        simp [firstStart, hb]
      have rhs : firstStart (b :: rest) = (firstStart rest).map (· + 1) := by
        simp [firstStart, hb]
      rw [lhs, rhs, ih]
      cases h : firstStart rest with
      | some j => simp
      | none =>
        cases hc : firstStart c with
        | none => simp
        | some k =>
          simp only [Option.map_some']
          simp [List.length_cons]
          omega

lemma firstStart_lt_length {l : List Nat} {j : Nat} (h : firstStart l = some j) :
    j < l.length := by
  induction l generalizing j with
  | nil => simp [firstStart] at h
  | cons b rest ih =>
    by_cases hb : b % 256 = NASA_START_BYTE
    · rw [firstStart, if_pos hb] at h
      obtain rfl : (0 : Nat) = j := Option.some.inj h
      simp
    · rw [firstStart, if_neg hb] at h
      obtain ⟨j', hj', rfl⟩ := Option.map_eq_some'.mp h
      have := ih hj'
      simp only [List.length_cons]
      omega

lemma analyze_of_firstStart_none {c : List Nat} (h : firstStart c = none) :
    PacketAnalyzer.analyzeBuffer c = ⟨[], [], []⟩ := by
  cases c with
  | nil => exact analyze_nil
  | cons y cr =>
    by_cases hy : y % 256 = NASA_START_BYTE
    · simp [firstStart, hy] at h
    · rw [firstStart, if_neg hy] at h
      cases hr : firstStart cr with
      | none => exact analyze_nostart hy hr
      | some j => simp [hr] at h

lemma analyze_of_firstStart_some {c : List Nat} {k : Nat} (h : firstStart c = some k) :
    (PacketAnalyzer.analyzeBuffer c).candidates =
      (PacketAnalyzer.analyzeBuffer (c.drop k)).candidates ∧
    (PacketAnalyzer.analyzeBuffer c).remaining =
      (PacketAnalyzer.analyzeBuffer (c.drop k)).remaining := by
  cases c with
  | nil => simp [firstStart] at h
  | cons y cr =>
    by_cases hy : y % 256 = NASA_START_BYTE
    · rw [firstStart, if_pos hy] at h
      obtain rfl : (0 : Nat) = k := Option.some.inj h
      exact ⟨rfl, rfl⟩
    · rw [firstStart, if_neg hy] at h
      cases hr : firstStart cr with
      | none => simp [hr] at h
      | some j =>
        rw [hr] at h
        simp only [Option.map_some'] at h
        obtain rfl : j + 1 = k := Option.some.inj h
        rw [analyze_skip hy hr, List.drop_succ_cons]
        exact ⟨rfl, rfl⟩

/-- Splitting the reassembler input: analysing `b ++ c` yields the
candidates of `b` followed by those of `b`'s retained tail concatenated
with `c` — the state kept between invocations loses nothing. -/
lemma analyze_append (b c : List Nat) :
    (PacketAnalyzer.analyzeBuffer (b ++ c)).candidates =
      (PacketAnalyzer.analyzeBuffer b).candidates ++
        (PacketAnalyzer.analyzeBuffer
          ((PacketAnalyzer.analyzeBuffer b).remaining ++ c)).candidates ∧
    (PacketAnalyzer.analyzeBuffer (b ++ c)).remaining =
      (PacketAnalyzer.analyzeBuffer
        ((PacketAnalyzer.analyzeBuffer b).remaining ++ c)).remaining := by
  induction b using PacketAnalyzer.analyzeBuffer.induct with
  | case1 =>
    rw [analyze_nil]
    exact ⟨rfl, rfl⟩
  | case2 b rest hb hlen totalSize havail ih =>
    have h1 : jsByte ((b :: rest) ++ c) 1 = jsByte (b :: rest) 1 :=
      jsByte_append_left (by simp only [List.length_cons]; omega)
    have h2 : jsByte ((b :: rest) ++ c) 2 = jsByte (b :: rest) 2 :=
      jsByte_append_left (by simp only [List.length_cons]; omega)
    have hlen' : 2 ≤ (rest ++ c).length := by
      rw [List.length_append]; omega
    have havail' : (jsByte ((b :: rest) ++ c) 1 <<< 8 ||| jsByte ((b :: rest) ++ c) 2) + 2
        ≤ ((b :: rest) ++ c).length := by
      rw [h1, h2, List.length_append]
      have h := havail
      omega
    have hABC := @analyze_extract b (rest ++ c) hb hlen' havail'
    rw [← List.cons_append, h1, h2] at hABC
    rw [List.take_append_of_le_length havail, List.drop_append_of_le_length havail] at hABC
    rw [hABC, analyze_extract hb hlen havail]
    dsimp only
    rw [ih.1, ih.2]
    exact ⟨rfl, rfl⟩
  | case3 b rest hb hlen totalSize havail =>
    rw [analyze_wait hb hlen havail]
    exact ⟨rfl, rfl⟩
  | case4 b rest hb hlen =>
    rw [analyze_short hb hlen]
    exact ⟨rfl, rfl⟩
  | case5 b rest hb hnone =>
    have key : (PacketAnalyzer.analyzeBuffer ((b :: rest) ++ c)).candidates
          = (PacketAnalyzer.analyzeBuffer c).candidates ∧
        (PacketAnalyzer.analyzeBuffer ((b :: rest) ++ c)).remaining
          = (PacketAnalyzer.analyzeBuffer c).remaining := by
      have hcons : (b :: rest) ++ c = b :: (rest ++ c) := List.cons_append b rest c
      cases hc : firstStart c with
      | none =>
        have happ : firstStart (rest ++ c) = none := by
          rw [firstStart_append, hnone, hc]
          rfl
        rw [hcons, analyze_nostart hb happ, analyze_of_firstStart_none hc]
        exact ⟨rfl, rfl⟩
      | some k =>
        have happ : firstStart (rest ++ c) = some (k + rest.length) := by
          rw [firstStart_append, hnone, hc]
          rfl
        have hdrop : (rest ++ c).drop (k + rest.length) = c.drop k := by
          rw [Nat.add_comm, List.drop_append]
        have h := analyze_of_firstStart_some hc
        rw [hcons, analyze_skip hb happ]
        dsimp only
        rw [hdrop]
        exact ⟨h.1.symm, h.2.symm⟩
    rw [analyze_nostart hb hnone]
    dsimp only
    simp only [List.nil_append]
    exact key
  | case6 b rest hb j hsome ih =>
    have happ : firstStart (rest ++ c) = some j := by
      rw [firstStart_append, hsome]
    rw [analyze_skip hb hsome, List.cons_append, analyze_skip hb happ]
    dsimp only
    rw [List.drop_append_of_le_length (Nat.le_of_lt (firstStart_lt_length hsome))]
    exact ⟨ih.1, ih.2⟩

lemma feedChunks_general (chunks : List (List Nat)) :
    ∀ b : List Nat,
      (PacketAnalyzer.analyzeBuffer b).candidates ++
          (feedChunks (PacketAnalyzer.analyzeBuffer b).remaining chunks).1 =
        (PacketAnalyzer.analyzeBuffer (b ++ chunks.flatten)).candidates ∧
      (feedChunks (PacketAnalyzer.analyzeBuffer b).remaining chunks).2 =
        (PacketAnalyzer.analyzeBuffer (b ++ chunks.flatten)).remaining := by
  induction chunks with
  | nil =>
    intro b
    simp [feedChunks]
  | cons ch rest ih =>
    intro b
    have hstep := analyze_append b ch
    have hrec := ih (b ++ ch)
    rw [feedChunks]
    dsimp only
    constructor
    · rw [← List.append_assoc, ← hstep.1, ← hstep.2, hrec.1, List.flatten_cons,
        List.append_assoc]
    · rw [← hstep.2, hrec.2, List.flatten_cons, List.append_assoc]

/-- Claim C5: feeding the reassembler any chunk partition of a byte
sequence — each invocation concatenating its chunk onto the retained tail —
yields exactly the candidate frames, and the final tail, of one invocation
on the whole sequence. -/
theorem claim_C5 (chunks : List (List Nat)) :
    (feedChunks [] chunks).1 = (PacketAnalyzer.analyzeBuffer chunks.flatten).candidates ∧
    (feedChunks [] chunks).2 = (PacketAnalyzer.analyzeBuffer chunks.flatten).remaining := by
  have h := feedChunks_general chunks []
  rw [analyze_nil] at h
  dsimp only at h
  rw [List.nil_append] at h
  exact ⟨h.1, h.2⟩

/-! ### Grouper characterisation (for claims C7 and C8) -/

/-- The signatures in order of first occurrence — the iteration order of the
JS `Map` (insertion order). -/
def firstOccAux : List String → List String → List String
  | acc, [] => acc
  | acc, s :: l => firstOccAux (if s ∈ acc then acc else acc ++ [s]) l

/-- First-occurrence order of a list of signatures. -/
def firstOcc (l : List String) : List String := firstOccAux [] l

lemma firstOccAux_append (l : List String) : ∀ (acc : List String) (s : String),
    firstOccAux acc (l ++ [s]) =
      if s ∈ firstOccAux acc l then firstOccAux acc l else firstOccAux acc l ++ [s] := by
  induction l with
  | nil => intro acc s; rfl
  | cons t l ih =>
    intro acc s
    show firstOccAux (if t ∈ acc then acc else acc ++ [t]) (l ++ [s]) = _
    rw [ih]
    rfl

lemma mem_firstOccAux (x : String) (l : List String) : ∀ acc : List String,
    x ∈ firstOccAux acc l ↔ x ∈ acc ∨ x ∈ l := by
  induction l with
  | nil => intro acc; simp [firstOccAux]
  | cons s l ih =>
    intro acc
    show x ∈ firstOccAux (if s ∈ acc then acc else acc ++ [s]) l ↔ _
    rw [ih]
    by_cases h : s ∈ acc
    · rw [if_pos h]
      simp only [List.mem_cons]
      constructor
      · tauto
      · rintro (hx | hx | hx)
        · tauto
        · exact Or.inl (hx ▸ h)
        · tauto
    · rw [if_neg h]
      simp only [List.mem_append, List.mem_cons, List.not_mem_nil, or_false]
      tauto

lemma mem_firstOcc {x : String} {l : List String} : x ∈ firstOcc l ↔ x ∈ l := by
  rw [firstOcc, mem_firstOccAux]
  simp

lemma firstOcc_append_mem {l : List String} {s : String} (h : s ∈ l) :
    firstOcc (l ++ [s]) = firstOcc l := by
  rw [firstOcc, firstOccAux_append]
  rw [if_pos ((mem_firstOccAux s l []).mpr (Or.inr h))]
  rfl

lemma firstOcc_append_not_mem {l : List String} {s : String} (h : s ∉ l) :
    firstOcc (l ++ [s]) = firstOcc l ++ [s] := by
  rw [firstOcc, firstOccAux_append]
  rw [if_neg (by rw [mem_firstOccAux]; simpa using h)]
  rfl

/-- The canonical group value for signature `s` after observing `ps`:
everything derived from the sub-sequence of packets carrying `s`. -/
def groupFor (ps : List Packet) (s : String) : PGroup :=
  { signature := s
    count := (sigOccurrences ps s).length
    firstSeen := ((sigOccurrences ps s).headD default).timestamp
    lastSeen := ((sigOccurrences ps s).getLastD default).timestamp
    examplePacket := (sigOccurrences ps s).headD default
    allPackets := sigOccurrences ps s }

lemma sigOccurrences_append (ps : List Packet) (p : Packet) (s : String) :
    sigOccurrences (ps ++ [p]) s =
      sigOccurrences ps s ++ (if p.getSignature = s then [p] else []) := by
  unfold sigOccurrences
  rw [List.filter_append]
  by_cases h : p.getSignature = s <;> simp [h]

lemma sigOccurrences_ne_nil {ps : List Packet} {s : String}
    (h : s ∈ ps.map Packet.getSignature) : sigOccurrences ps s ≠ [] := by
  obtain ⟨p, hp, rfl⟩ := List.mem_map.mp h
  intro hnil
  rw [sigOccurrences, List.filter_eq_nil_iff] at hnil
  exact hnil p hp (by simp)

lemma sigOccurrences_eq_nil {ps : List Packet} {s : String}
    (h : s ∉ ps.map Packet.getSignature) : sigOccurrences ps s = [] := by
  rw [sigOccurrences, List.filter_eq_nil_iff]
  intro p hp hsig
  exact h (List.mem_map.mpr ⟨p, hp, by simpa using hsig⟩)

lemma headD_append_of_ne_nil {l l' : List Packet} (h : l ≠ []) (d : Packet) :
    (l ++ l').headD d = l.headD d := by
  cases l with
  | nil => exact absurd rfl h
  | cons a t => rfl

lemma groupFor_append_ne {ps : List Packet} {p : Packet} {s : String}
    (h : p.getSignature ≠ s) : groupFor (ps ++ [p]) s = groupFor ps s := by
  unfold groupFor
  rw [sigOccurrences_append, if_neg h, List.append_nil]

lemma any_sig_map (L : List String) (ps : List Packet) (sig : String) :
    ((L.map (groupFor ps)).any fun g => g.signature = sig) = decide (sig ∈ L) := by
  induction L with
  | nil => rfl
  | cons s L ih =>
    simp only [List.map_cons, List.any_cons, ih]
    show (decide ((groupFor ps s).signature = sig) || _) = _
    have : (groupFor ps s).signature = s := rfl
    rw [this]
    by_cases h : s = sig
    · simp [h]
    · simp [h, Ne.symm h]

lemma run_snoc (ps : List Packet) (p : Packet) :
    PacketGrouper.run (ps ++ [p]) = PacketGrouper.addPacket (PacketGrouper.run ps) p := by
  unfold PacketGrouper.run
  rw [List.foldl_append]
  rfl

/-- The grouper state is canonical: after observing `ps`, the group list
holds, in first-occurrence order of the signatures, exactly the group
derived from each signature's occurrence sub-sequence. -/
lemma run_groups_eq (ps : List Packet) :
    (PacketGrouper.run ps).groups =
      (firstOcc (ps.map Packet.getSignature)).map (groupFor ps) := by
  induction ps using List.reverseRecOn with
  | nil => rfl
  | append_singleton ps p ih =>
    rw [run_snoc]
    unfold PacketGrouper.addPacket
    dsimp only
    rw [ih, any_sig_map]
    rw [List.map_append]
    simp only [List.map_cons, List.map_nil]
    by_cases hmem : p.getSignature ∈ ps.map Packet.getSignature
    · rw [if_pos (decide_eq_true (mem_firstOcc.mpr hmem))]
      rw [firstOcc_append_mem hmem, List.map_map]
      apply List.map_congr_left
      intro s hsL
      show (if (groupFor ps s).signature = p.getSignature then _ else _) = groupFor (ps ++ [p]) s
      by_cases hs : s = p.getSignature
      · subst hs
        rw [if_pos (show (groupFor ps p.getSignature).signature = p.getSignature from rfl)]
        have hne := sigOccurrences_ne_nil hmem
        unfold groupFor
        dsimp only
        rw [sigOccurrences_append, if_pos rfl]
        rw [headD_append_of_ne_nil hne, List.getLastD_concat]
        simp [List.length_append]
      · rw [if_neg (show ¬(groupFor ps s).signature = p.getSignature from hs)]
        exact (groupFor_append_ne (Ne.symm hs)).symm
    · rw [if_neg (by simp [mem_firstOcc, hmem])]
      rw [firstOcc_append_not_mem hmem]
      rw [List.map_append, List.map_append, List.map_map]
      congr 1
      · apply List.map_congr_left
        intro s hsL
        have hs : s ≠ p.getSignature := by
          intro h
          exact hmem (h ▸ mem_firstOcc.mp hsL)
        show (if (groupFor ps s).signature = p.getSignature then _ else _) = groupFor (ps ++ [p]) s
        rw [if_neg (show ¬(groupFor ps s).signature = p.getSignature from hs)]
        exact (groupFor_append_ne (Ne.symm hs)).symm
      · simp only [List.map_cons, List.map_nil]
        congr 1
        simp only [if_true]
        unfold groupFor
        rw [sigOccurrences_append, if_pos rfl, sigOccurrences_eq_nil hmem]
        rfl

/-- Claim C8: every group held by the grouper satisfies the invariants —
its example packet is the first packet observed with that signature, its
`firstSeen` is that first packet's timestamp (so it never changes once the
group exists), its count is the number of packets observed with the
signature, its `lastSeen` is the most recent such packet's timestamp, and
its packet list is exactly the occurrence sub-sequence. -/
theorem claim_C8 (ps : List Packet) (g : PGroup)
    (hg : g ∈ (PacketGrouper.run ps).groups) :
    (sigOccurrences ps g.signature).head? = some g.examplePacket ∧
    g.firstSeen = g.examplePacket.timestamp ∧
    g.count = (sigOccurrences ps g.signature).length ∧
    (∃ q, (sigOccurrences ps g.signature).getLast? = some q ∧ g.lastSeen = q.timestamp) ∧
    g.allPackets = sigOccurrences ps g.signature := by
  rw [run_groups_eq] at hg
  obtain ⟨s, hsL, rfl⟩ := List.mem_map.mp hg
  have hs : s ∈ ps.map Packet.getSignature := mem_firstOcc.mp hsL
  have hne : sigOccurrences ps s ≠ [] := sigOccurrences_ne_nil hs
  have hsig : (groupFor ps s).signature = s := rfl
  rw [hsig]
  refine ⟨?_, rfl, rfl, ?_, rfl⟩
  · show (sigOccurrences ps s).head? = some ((sigOccurrences ps s).headD default)
    cases hocc : sigOccurrences ps s with
    | nil => exact absurd hocc hne
    | cons a t => rfl
  · refine ⟨(sigOccurrences ps s).getLastD default, ?_, rfl⟩
    rw [List.getLastD_eq_getLast?]
    cases hlast : (sigOccurrences ps s).getLast? with
    | none => exact absurd (List.getLast?_eq_none_iff.mp hlast) hne
    | some q => rfl

/-- A sample packet: Indoor(20.00.00) → Outdoor(10.00.00), Notification,
one Variable message 0x4201 with value 220, stamped at instant 1. -/
def pSampleA : Packet :=
  { sa := ⟨0x20, 0, 0⟩
    da := ⟨0x10, 0, 0⟩
    command := { dataType := 4 }
    messages := [{ messageNumber := 0x4201, msType := 1, value := 220, size := 4 }]
    rawData := none
    timestamp := some 1 }

/-- Like `pSampleA` but with a different message value and a later
timestamp: same signature, different packet. -/
def pSampleB : Packet :=
  { sa := ⟨0x20, 0, 0⟩
    da := ⟨0x10, 0, 0⟩
    command := { dataType := 4 }
    messages := [{ messageNumber := 0x4201, msType := 1, value := 230, size := 4 }]
    rawData := none
    timestamp := some 2 }

/-- Witness for C8: two packets with identical addresses, data type and
message numbers but different values land in one group with count 2, the
first as example, `firstSeen` from the first and `lastSeen` from the
second. -/
theorem claim_C8_witness :
    ((PacketGrouper.run [pSampleA, pSampleB]).groups.headD default
        ∈ (PacketGrouper.run [pSampleA, pSampleB]).groups) ∧
    ((sigOccurrences [pSampleA, pSampleB]
        ((PacketGrouper.run [pSampleA, pSampleB]).groups.headD default).signature).head? =
      some ((PacketGrouper.run [pSampleA, pSampleB]).groups.headD default).examplePacket ∧
     ((PacketGrouper.run [pSampleA, pSampleB]).groups.headD default).firstSeen =
      ((PacketGrouper.run [pSampleA, pSampleB]).groups.headD default).examplePacket.timestamp ∧
     ((PacketGrouper.run [pSampleA, pSampleB]).groups.headD default).count =
      (sigOccurrences [pSampleA, pSampleB]
        ((PacketGrouper.run [pSampleA, pSampleB]).groups.headD default).signature).length ∧
     (∃ q, (sigOccurrences [pSampleA, pSampleB]
        ((PacketGrouper.run [pSampleA, pSampleB]).groups.headD default).signature).getLast? =
          some q ∧
        ((PacketGrouper.run [pSampleA, pSampleB]).groups.headD default).lastSeen = q.timestamp) ∧
     ((PacketGrouper.run [pSampleA, pSampleB]).groups.headD default).allPackets =
      sigOccurrences [pSampleA, pSampleB]
        ((PacketGrouper.run [pSampleA, pSampleB]).groups.headD default).signature) ∧
    pSampleA.getSignature = pSampleB.getSignature ∧
    pSampleA ≠ pSampleB ∧
    (PacketGrouper.run [pSampleA, pSampleB]).groups.length = 1 ∧
    ((PacketGrouper.run [pSampleA, pSampleB]).groups.headD default).count = 2 ∧
    ((PacketGrouper.run [pSampleA, pSampleB]).groups.headD default).examplePacket = pSampleA ∧
    ((PacketGrouper.run [pSampleA, pSampleB]).groups.headD default).firstSeen = some 1 ∧
    ((PacketGrouper.run [pSampleA, pSampleB]).groups.headD default).lastSeen = some 2 :=
  ⟨by decide, claim_C8 [pSampleA, pSampleB] _ (by decide),
   by decide, by decide, by decide, by decide, by decide, by decide, by decide⟩

/-! ### Report ordering (for claim C7) -/

/-- The claimed report order: count descending, ties by `firstSeen`
ascending. -/
def reportOrder (g1 g2 : PGroup) : Prop :=
  g2.count < g1.count ∨ (g1.count = g2.count ∧ tsLe g1.firstSeen g2.firstSeen)

instance (g1 g2 : PGroup) : Decidable (reportOrder g1 g2) := by
  unfold reportOrder
  infer_instance

lemma mem_insertByCount {y g : PGroup} {l : List PGroup} :
    y ∈ insertByCount g l ↔ y = g ∨ y ∈ l := by
  induction l with
  | nil => simp [insertByCount]
  | cons h t ih =>
    rw [insertByCount]
    by_cases hc : h.count < g.count
    · rw [if_pos hc]
      simp only [List.mem_cons]
    · rw [if_neg hc]
      simp only [List.mem_cons, ih]
      tauto

lemma pairwise_insertByCount {g : PGroup} {l : List PGroup}
    (hl : List.Pairwise reportOrder l)
    (hts : ∀ h ∈ l, h.count = g.count → tsLe h.firstSeen g.firstSeen) :
    List.Pairwise reportOrder (insertByCount g l) := by
  induction l with
  | nil => simp [insertByCount]
  | cons h t ih =>
    rw [insertByCount]
    obtain ⟨hht, htt⟩ := List.pairwise_cons.mp hl
    by_cases hc : h.count < g.count
    · rw [if_pos hc]
      rw [List.pairwise_cons]
      refine ⟨?_, hl⟩
      intro x hx
      rw [List.mem_cons] at hx
      rcases hx with rfl | hx
      · exact Or.inl hc
      · have := hht x hx
        unfold reportOrder at this ⊢
        left
        omega
    · rw [if_neg hc]
      rw [List.pairwise_cons]
      constructor
      · intro x hx
        rw [mem_insertByCount] at hx
        rcases hx with rfl | hx
        · by_cases he : h.count = x.count
          · exact Or.inr ⟨he, hts h (List.mem_cons_self h t) he⟩
          · exact Or.inl (by omega)
        · exact hht x hx
      · exact ih htt fun x hx he => hts x (List.mem_cons_of_mem h hx) he

lemma foldl_insert_pairwise : ∀ (l acc : List PGroup),
    List.Pairwise reportOrder acc →
    (∀ h ∈ acc, ∀ g ∈ l, h.count = g.count → tsLe h.firstSeen g.firstSeen) →
    List.Pairwise (fun a b => a.count = b.count → tsLe a.firstSeen b.firstSeen) l →
    List.Pairwise reportOrder (l.foldl (fun acc g => insertByCount g acc) acc) := by
  intro l
  induction l with
  | nil => intro acc h1 _ _; exact h1
  | cons g t ih =>
    intro acc h1 h2 h3
    rw [List.foldl_cons]
    obtain ⟨hgt, htt⟩ := List.pairwise_cons.mp h3
    apply ih
    · exact pairwise_insertByCount h1 fun h hh he => h2 h hh g (List.mem_cons_self g t) he
    · intro h hh x hx he
      rw [mem_insertByCount] at hh
      rcases hh with rfl | hh
      · exact hgt x hx he
      · exact h2 h hh x (List.mem_cons_of_mem g hx) he
    · exact htt

lemma addPacket_fsList (st : GrouperState) (p : Packet) :
    (PacketGrouper.addPacket st p).groups.map (fun g => g.firstSeen) =
      if st.groups.any (fun g => g.signature = p.getSignature)
      then st.groups.map (fun g => g.firstSeen)
      else st.groups.map (fun g => g.firstSeen) ++ [p.timestamp] := by
  unfold PacketGrouper.addPacket
  dsimp only
  by_cases hc : st.groups.any (fun g => g.signature = p.getSignature)
  · rw [if_pos hc, if_pos hc, List.map_map]
    apply List.map_congr_left
    intro g _
    by_cases hs : g.signature = p.getSignature <;> simp [Function.comp, hs]
  · rw [if_neg hc, if_neg hc, List.map_map, List.map_append, List.map_cons, List.map_nil]
    congr 1
    · apply List.map_congr_left
      intro g _
      by_cases hs : g.signature = p.getSignature <;> simp [Function.comp, hs]
    · simp

lemma run_fs_pairwise : ∀ (ps : List Packet) (st : GrouperState),
    List.Pairwise tsLe (st.groups.map fun g => g.firstSeen) →
    (∀ a ∈ st.groups.map fun g => g.firstSeen, ∀ p ∈ ps, tsLe a p.timestamp) →
    List.Pairwise (fun p q => tsLe p.timestamp q.timestamp) ps →
    List.Pairwise tsLe ((List.foldl PacketGrouper.addPacket st ps).groups.map
      fun g => g.firstSeen) := by
  intro ps
  induction ps with
  | nil => intro st h1 _ _; exact h1
  | cons p t ih =>
    intro st h1 h2 h3
    obtain ⟨hpt, htt⟩ := List.pairwise_cons.mp h3
    rw [List.foldl_cons]
    apply ih
    · rw [addPacket_fsList]
      by_cases hc : st.groups.any (fun g => g.signature = p.getSignature)
      · rw [if_pos hc]; exact h1
      · rw [if_neg hc]
        rw [List.pairwise_append]
        refine ⟨h1, List.pairwise_singleton _ _, ?_⟩
        intro a ha b hb
        rw [List.mem_singleton] at hb
        subst hb
        exact h2 a ha p (List.mem_cons_self p t)
    · intro a ha q hq
      rw [addPacket_fsList] at ha
      by_cases hc : st.groups.any (fun g => g.signature = p.getSignature)
      · rw [if_pos hc] at ha
        exact h2 a ha q (List.mem_cons_of_mem p hq)
      · rw [if_neg hc] at ha
        rw [List.mem_append, List.mem_singleton] at ha
        rcases ha with ha | rfl
        · exact h2 a ha q (List.mem_cons_of_mem p hq)
        · exact hpt q hq
    · exact htt

/-- Claim C7: for every observation sequence delivered in timestamp order —
decode stamps packets with a monotone wall clock — the report lists the
groups sorted by count descending, ties broken by `firstSeen` ascending
(the ECMAScript sort is stable and the group map iterates in insertion
order, which is first-seen order). -/
theorem claim_C7 (ps : List Packet)
    (hts : List.Pairwise (fun p q => tsLe p.timestamp q.timestamp) ps) :
    List.Pairwise reportOrder (PacketGrouper.reportGroups (PacketGrouper.run ps)) := by
  have hfs : List.Pairwise tsLe ((PacketGrouper.run ps).groups.map fun g => g.firstSeen) :=
    run_fs_pairwise ps ⟨[], 0⟩ (by simp) (by simp) hts
  have hfs' : List.Pairwise (fun (a b : PGroup) => a.count = b.count →
      tsLe a.firstSeen b.firstSeen) (PacketGrouper.run ps).groups := by
    refine List.Pairwise.imp ?_ (List.pairwise_map.mp hfs)
    intro a b h _
    exact h
  unfold PacketGrouper.reportGroups sortGroups
  exact foldl_insert_pairwise _ [] (List.Pairwise.nil) (by simp) hfs'

/-- Witness for C7: three packets in timestamp order, two sharing a
signature; the theorem applies and yields the sortedness of the resulting
two-group report. -/
theorem claim_C7_witness :
    List.Pairwise (fun p q => tsLe p.timestamp q.timestamp)
      [({ timestamp := some 1 } : Packet),
       ({ command := { dataType := 1 }, timestamp := some 2 } : Packet),
       ({ timestamp := some 3 } : Packet)] ∧
    List.Pairwise reportOrder (PacketGrouper.reportGroups (PacketGrouper.run
      [({ timestamp := some 1 } : Packet),
       ({ command := { dataType := 1 }, timestamp := some 2 } : Packet),
       ({ timestamp := some 3 } : Packet)])) :=
  ⟨by decide, claim_C7 _ (by decide)⟩

/-- Witness for C3 at the concrete buffer `32 00 00 41` (declared length 2):
the declared-length bytes are extracted as a candidate and rejected with
`unexpectedSize`. -/
theorem claim_C3_witness :
    jsByte [0x32, 0x00, 0x00, 0x41] 0 = NASA_START_BYTE ∧
    3 ≤ ([0x32, 0x00, 0x00, 0x41] : List Nat).length ∧
    ((jsByte [0x32, 0x00, 0x00, 0x41] 1 <<< 8 ||| jsByte [0x32, 0x00, 0x00, 0x41] 2) + 2 < 16 ∨
      1500 < (jsByte [0x32, 0x00, 0x00, 0x41] 1 <<< 8 ||| jsByte [0x32, 0x00, 0x00, 0x41] 2) + 2) ∧
    (jsByte [0x32, 0x00, 0x00, 0x41] 1 <<< 8 ||| jsByte [0x32, 0x00, 0x00, 0x41] 2) + 2 ≤
      ([0x32, 0x00, 0x00, 0x41] : List Nat).length ∧
    (PacketAnalyzer.analyzeBuffer [0x32, 0x00, 0x00, 0x41] =
      ⟨([0x32, 0x00, 0x00, 0x41] : List Nat).take
            ((jsByte [0x32, 0x00, 0x00, 0x41] 1 <<< 8 ||| jsByte [0x32, 0x00, 0x00, 0x41] 2) + 2) ::
          (PacketAnalyzer.analyzeBuffer (([0x32, 0x00, 0x00, 0x41] : List Nat).drop
            ((jsByte [0x32, 0x00, 0x00, 0x41] 1 <<< 8 ||| jsByte [0x32, 0x00, 0x00, 0x41] 2) + 2))).candidates,
        (PacketAnalyzer.analyzeBuffer (([0x32, 0x00, 0x00, 0x41] : List Nat).drop
          ((jsByte [0x32, 0x00, 0x00, 0x41] 1 <<< 8 ||| jsByte [0x32, 0x00, 0x00, 0x41] 2) + 2))).skips,
        (PacketAnalyzer.analyzeBuffer (([0x32, 0x00, 0x00, 0x41] : List Nat).drop
          ((jsByte [0x32, 0x00, 0x00, 0x41] 1 <<< 8 ||| jsByte [0x32, 0x00, 0x00, 0x41] 2) + 2))).remaining⟩ ∧
      (Packet.decode {} (([0x32, 0x00, 0x00, 0x41] : List Nat).take
        ((jsByte [0x32, 0x00, 0x00, 0x41] 1 <<< 8 ||| jsByte [0x32, 0x00, 0x00, 0x41] 2) + 2)) 0).2 =
        .unexpectedSize) :=
  ⟨by decide, by decide, by decide, by decide,
   claim_C3 [0x32, 0x00, 0x00, 0x41] 0 {} (by decide) (by decide) (by decide) (by decide)⟩
